import Mathlib

/-!
Shallow embedding of the circuit-breaker state machine from `src/main.rs`
(`StateMachine`, `Shared`, `State`, `Error`, and the `CircuitBreaker::call`
wrapper), together with theorems settling the specification claims.

Modelling conventions:
* `std::time::Instant` and `std::time::Duration` are modelled as `Nat`
  (`Instant::now()` is passed in explicitly as a `now` argument wherever the
  source calls it, since each lock acquisition reads the clock independently);
* the `Mutex<Shared>` is sequentialized: every method takes the current
  `Shared` and returns the updated one;
* `consecutive_failures : u8` is a `Nat`; the `+= 1` increment is modelled
  with an explicit `% 256` wrap, and `max_failures : u8` carries the range
  bound `≤ 255` as a hypothesis where it matters.
-/

/-- Time instants; stands for `std::time::Instant`. -/
abbrev Instant := Nat

/-- Durations; stands for `std::time::Duration` (non-negative). -/
abbrev Duration := Nat

/-- Rust `Result<T, E>`. -/
inductive Result (T E : Type) where
  | Ok (t : T)
  | Err (e : E)
deriving DecidableEq, Repr

/-- The breaker's error type, from `enum Error<E>` in `src/main.rs`. -/
inductive Error (E : Type) where
  | Inner (e : E)
  | Rejected
deriving DecidableEq, Repr

/-- The breaker state, from `enum State` in `src/main.rs`. -/
inductive State where
  | Closed
  | Open (until_ : Instant) (delay : Duration)
  | HalfOpen (delay : Duration)
deriving DecidableEq, Repr

/-- The mutable state protected by the mutex, from `struct Shared`. -/
structure Shared where
  state : State
  consecutive_failures : Nat
deriving DecidableEq, Repr

/-- The breaker configuration, from `struct StateMachine` (the `Arc<Inner>`
holding the `Mutex<Shared>` is sequentialized away; the `Shared` value is
threaded explicitly through every method). -/
structure StateMachine where
  max_failures : Nat
  trip_timeout : Duration
deriving DecidableEq, Repr

/-- From `Shared::transit_to_closed`. -/
def Shared.transit_to_closed (sh : Shared) : Shared :=
  { sh with state := State.Closed, consecutive_failures := 0 }

/-- From `Shared::transit_to_half_open`. -/
def Shared.transit_to_half_open (sh : Shared) (delay : Duration) : Shared :=
  { sh with state := State.HalfOpen delay }

/-- From `Shared::transit_to_open`; `now` stands for the `Instant::now()`
read inside the method. -/
def Shared.transit_to_open (sh : Shared) (now : Instant) (delay : Duration) : Shared :=
  { sh with state := State.Open (now + delay) delay }

/-- From `StateMachine::new`: returns the configuration together with the
initial `Shared` value placed behind the mutex. -/
def StateMachine.new (max_failures : Nat) (trip_timeout : Duration) : StateMachine × Shared :=
  ({ max_failures := max_failures, trip_timeout := trip_timeout },
   { state := State.Closed, consecutive_failures := 0 })

/-- The initial shared state created by `StateMachine::new`. -/
def initShared : Shared :=
  { state := State.Closed, consecutive_failures := 0 }

/-- From `StateMachine::is_call_permitted`: returns the permission boolean
and the (possibly transitioned) shared state. -/
def StateMachine.is_call_permitted (sm : StateMachine) (now : Instant) (sh : Shared) :
    Bool × Shared :=
  match sh.state with
  | State.Closed => (true, sh)
  | State.HalfOpen _ => (true, sh)
  | State.Open until_ delay =>
    if now > until_ then (true, sh.transit_to_half_open delay) else (false, sh)

/-- From `StateMachine::on_error`; the u8 increment wraps at 256. -/
def StateMachine.on_error (sm : StateMachine) (now : Instant) (sh : Shared) : Shared :=
  match sh.state with
  | State.Closed =>
    let sh' := { sh with consecutive_failures := (sh.consecutive_failures + 1) % 256 }
    if sh'.consecutive_failures ≥ sm.max_failures then
      sh'.transit_to_open now sm.trip_timeout
    else
      sh'
  | State.HalfOpen delay_in_half_open => sh.transit_to_open now delay_in_half_open
  | State.Open _ _ => sh

/-- From `StateMachine::on_success`. -/
def StateMachine.on_success (sm : StateMachine) (sh : Shared) : Shared :=
  match sh.state with
  | State.HalfOpen _ => sh.transit_to_closed
  | _ => sh

/-- From `CircuitBreaker::call` for `StateMachine`. The operation `f` is a
thunk returning a `Result`; `now1` is the clock reading inside
`is_call_permitted` and `now2` the one inside `on_error` (they are separate
`Instant::now()` calls in the source). -/
def StateMachine.call {T E : Type} (sm : StateMachine) (now1 now2 : Instant) (sh : Shared)
    (f : Unit → Result T E) : Result T (Error E) × Shared :=
  let p := sm.is_call_permitted now1 sh
  if !p.1 then
    (Result.Err Error.Rejected, p.2)
  else
    match f () with
    | Result.Ok ok => (Result.Ok ok, sm.on_success p.2)
    | Result.Err err => (Result.Err (Error.Inner err), sm.on_error now2 p.2)

/-- Events observable during one execution of `call`, in program order. -/
inductive CallEvent (T E : Type) where
  | admission (permitted : Bool)
  | invoked (r : Result T E)
  | reportedSuccess
  | reportedError
deriving DecidableEq, Repr

/-- Instrumented twin of `StateMachine.call` that additionally records, in
program order, the admission check, the invocation of `f`, and the outcome
report; its control flow mirrors the source of `call` line by line. -/
def StateMachine.callWithTrace {T E : Type} (sm : StateMachine) (now1 now2 : Instant)
    (sh : Shared) (f : Unit → Result T E) :
    (Result T (Error E) × Shared) × List (CallEvent T E) :=
  let p := sm.is_call_permitted now1 sh
  if !p.1 then
    ((Result.Err Error.Rejected, p.2), [CallEvent.admission false])
  else
    match f () with
    | Result.Ok ok =>
      ((Result.Ok ok, sm.on_success p.2),
       [CallEvent.admission true, CallEvent.invoked (Result.Ok ok), CallEvent.reportedSuccess])
    | Result.Err err =>
      ((Result.Err (Error.Inner err), sm.on_error now2 p.2),
       [CallEvent.admission true, CallEvent.invoked (Result.Err err), CallEvent.reportedError])

/-- One interaction with the state machine: an admission check at a given
time, a reported success, or a reported error at a given time. -/
inductive Op where
  | permit (now : Instant)
  | success
  | failure (now : Instant)
deriving DecidableEq, Repr

/-- Apply one interaction to the shared state. -/
def StateMachine.applyOp (sm : StateMachine) (sh : Shared) : Op → Shared
  | Op.permit now => (sm.is_call_permitted now sh).2
  | Op.success => sm.on_success sh
  | Op.failure now => sm.on_error now sh

/-- Run a sequence of interactions from a given shared state. -/
def StateMachine.run (sm : StateMachine) (sh : Shared) : List Op → Shared
  | [] => sh
  | op :: ops => sm.run (sm.applyOp sh op) ops

/-- Drive a list of call outcomes (`true` = the operation succeeds, `false` =
it fails) through `call`, all at time 0, collecting each call's result and
the final shared state. -/
def StateMachine.runOutcomes (sm : StateMachine) (sh : Shared) :
    List Bool → List (Result Unit (Error Unit)) × Shared
  | [] => ([], sh)
  | b :: rest =>
    let step := sm.call 0 0 sh (fun _ => if b then Result.Ok () else Result.Err ())
    let next := sm.runOutcomes step.2 rest
    (step.1 :: next.1, next.2)

/-- Number of failures (`false` entries) in a list of outcomes. -/
def countFailures : List Bool → Nat
  | [] => 0
  | b :: rest => (if b then 0 else 1) + countFailures rest

/-- Modelled from the spec: the length of the longest run of consecutive
(back-to-back) failures in a sequence of call outcomes, used to state the
spec's quantification over sequences with fewer than `max_failures`
consecutive failures. -/
def spec_maxConsecutiveFailures (outs : List Bool) : Nat :=
  (outs.foldl
    (fun p b => if b then (0, p.2) else (p.1 + 1, Nat.max p.2 (p.1 + 1)))
    ((0, 0) : Nat × Nat)).2

/-- Counter invariant: the failure counter never exceeds `max_failures`, and
is strictly below it whenever the breaker is Closed. -/
def CounterInv (sm : StateMachine) (sh : Shared) : Prop :=
  sh.consecutive_failures ≤ sm.max_failures ∧
    (sh.state = State.Closed → sh.consecutive_failures < sm.max_failures)

/-! Theorems settling the claims. -/

/-- C3: `is_call_permitted` returns true with no mutation in `Closed` and
`HalfOpen`; in `Open(until, delay)` it transitions to `HalfOpen(delay)` and
returns true when the current time has passed `until`, and otherwise returns
false with no mutation; `consecutive_failures` is never mutated. -/
theorem C3_is_call_permitted_spec (sm : StateMachine) (now : Instant) (sh : Shared) :
    (sh.state = State.Closed → sm.is_call_permitted now sh = (true, sh))
    ∧ (∀ d, sh.state = State.HalfOpen d → sm.is_call_permitted now sh = (true, sh))
    ∧ (∀ u d, sh.state = State.Open u d →
        ((now > u → sm.is_call_permitted now sh = (true, { sh with state := State.HalfOpen d }))
          ∧ (¬ now > u → sm.is_call_permitted now sh = (false, sh))))
    ∧ (sm.is_call_permitted now sh).2.consecutive_failures = sh.consecutive_failures := by
  obtain ⟨st, cf⟩ := sh
  cases st with
  | Closed => simp [StateMachine.is_call_permitted]
  | HalfOpen d => simp [StateMachine.is_call_permitted]
  | Open u d =>
    by_cases h : now > u
    · simp [StateMachine.is_call_permitted, Shared.transit_to_half_open, h]
    · simp [StateMachine.is_call_permitted, Shared.transit_to_half_open, h]
      all_goals exact Nat.not_lt.mp h

/-- Witness for C3 at concrete inputs covering all three states. -/
theorem C3_witness :
    StateMachine.is_call_permitted ⟨3, 10⟩ 0 initShared = (true, initShared)
    ∧ StateMachine.is_call_permitted ⟨3, 10⟩ 5 ⟨State.Open 3 7, 2⟩ = (true, ⟨State.HalfOpen 7, 2⟩)
    ∧ StateMachine.is_call_permitted ⟨3, 10⟩ 2 ⟨State.Open 3 7, 2⟩ = (false, ⟨State.Open 3 7, 2⟩) :=
  ⟨(C3_is_call_permitted_spec ⟨3, 10⟩ 0 initShared).1 rfl,
   ((C3_is_call_permitted_spec ⟨3, 10⟩ 5 ⟨State.Open 3 7, 2⟩).2.2.1 3 7 rfl).1 (by decide),
   ((C3_is_call_permitted_spec ⟨3, 10⟩ 2 ⟨State.Open 3 7, 2⟩).2.2.1 3 7 rfl).2 (by decide)⟩

/-- C5: `on_error` in `HalfOpen(delay)` transitions to `Open` re-arming the
same delay, with `until = now + delay`; a later admission check succeeds
exactly when that same delay has elapsed again past `now`. -/
theorem C5_on_error_half_open (sm : StateMachine) (now : Instant) (sh : Shared) (d : Duration)
    (h : sh.state = State.HalfOpen d) :
    sm.on_error now sh = { sh with state := State.Open (now + d) d }
    ∧ ∀ t, ((sm.is_call_permitted t (sm.on_error now sh)).1 = true ↔ now + d < t) := by
  obtain ⟨st, cf⟩ := sh
  simp only [] at h
  subst h
  constructor
  · simp [StateMachine.on_error, Shared.transit_to_open]
  · intro t
    by_cases ht : now + d < t
    · simp [StateMachine.on_error, Shared.transit_to_open, StateMachine.is_call_permitted, ht]
    · simp [StateMachine.on_error, Shared.transit_to_open, StateMachine.is_call_permitted, ht]

/-- Witness for C5 at a concrete half-open state. -/
theorem C5_witness :
    StateMachine.on_error ⟨3, 10⟩ 4 ⟨State.HalfOpen 7, 3⟩ = ⟨State.Open 11 7, 3⟩
    ∧ ((StateMachine.is_call_permitted ⟨3, 10⟩ 12
          (StateMachine.on_error ⟨3, 10⟩ 4 ⟨State.HalfOpen 7, 3⟩)).1 = true ↔ 4 + 7 < 12) :=
  ⟨(C5_on_error_half_open ⟨3, 10⟩ 4 ⟨State.HalfOpen 7, 3⟩ 7 rfl).1,
   (C5_on_error_half_open ⟨3, 10⟩ 4 ⟨State.HalfOpen 7, 3⟩ 7 rfl).2 12⟩

/-- C6: `on_success` in `HalfOpen` transitions to `Closed` and resets the
failure counter to 0; in `Closed` and `Open` it changes nothing at all. -/
theorem C6_on_success_spec (sm : StateMachine) (sh : Shared) :
    (∀ d, sh.state = State.HalfOpen d →
      sm.on_success sh = { state := State.Closed, consecutive_failures := 0 })
    ∧ (sh.state = State.Closed → sm.on_success sh = sh)
    ∧ (∀ u d, sh.state = State.Open u d → sm.on_success sh = sh) := by
  obtain ⟨st, cf⟩ := sh
  cases st <;> simp [StateMachine.on_success, Shared.transit_to_closed]

/-- Witness for C6 at concrete inputs covering all three states. -/
theorem C6_witness :
    StateMachine.on_success ⟨3, 10⟩ ⟨State.HalfOpen 7, 3⟩ = ⟨State.Closed, 0⟩
    ∧ StateMachine.on_success ⟨3, 10⟩ ⟨State.Closed, 2⟩ = ⟨State.Closed, 2⟩
    ∧ StateMachine.on_success ⟨3, 10⟩ ⟨State.Open 5 7, 3⟩ = ⟨State.Open 5 7, 3⟩ :=
  ⟨(C6_on_success_spec ⟨3, 10⟩ ⟨State.HalfOpen 7, 3⟩).1 7 rfl,
   (C6_on_success_spec ⟨3, 10⟩ ⟨State.Closed, 2⟩).2.1 rfl,
   (C6_on_success_spec ⟨3, 10⟩ ⟨State.Open 5 7, 3⟩).2.2 5 7 rfl⟩

/-- C1 (amended): `on_error` in `Closed` increments `consecutive_failures`
(with the u8 wrap) and, when the incremented count reaches `max_failures`,
transitions to `Open` with `delay = trip_timeout` and
`until = now + trip_timeout`; the incremented counter value is kept — it is
NOT reset to 0 by this transition. -/
theorem C1_on_error_closed (sm : StateMachine) (now : Instant) (sh : Shared)
    (h : sh.state = State.Closed) :
    sm.on_error now sh =
      (if (sh.consecutive_failures + 1) % 256 ≥ sm.max_failures then
        { state := State.Open (now + sm.trip_timeout) sm.trip_timeout,
          consecutive_failures := (sh.consecutive_failures + 1) % 256 }
      else
        { sh with consecutive_failures := (sh.consecutive_failures + 1) % 256 }) := by
  obtain ⟨st, cf⟩ := sh
  simp only [] at h
  subst h
  by_cases hc : (cf + 1) % 256 ≥ sm.max_failures
  · simp [StateMachine.on_error, Shared.transit_to_open, hc]
  · simp [StateMachine.on_error, hc]

/-- Counterexample for C1 as stated: with `max_failures = 3` and
`trip_timeout = 10`, three straight errors from the initial state trip the
breaker to `Open(10, 10)`, but `consecutive_failures` is 3 afterwards, not
0 — `Shared::transit_to_open` does not reset the counter. -/
theorem C1_counterexample :
    StateMachine.run ⟨3, 10⟩ initShared [Op.failure 0, Op.failure 0, Op.failure 0] =
      { state := State.Open 10 10, consecutive_failures := 3 }
    ∧ (StateMachine.run ⟨3, 10⟩ initShared
        [Op.failure 0, Op.failure 0, Op.failure 0]).consecutive_failures ≠ 0 := by
  decide

/-- Witness for C1 at a concrete closed state one failure short of the
threshold. -/
theorem C1_witness :
    StateMachine.on_error ⟨3, 10⟩ 0 ⟨State.Closed, 2⟩ =
      (if (2 + 1) % 256 ≥ 3 then
        ({ state := State.Open (0 + 10) 10, consecutive_failures := (2 + 1) % 256 } : Shared)
      else
        { state := State.Closed, consecutive_failures := (2 + 1) % 256 }) :=
  C1_on_error_closed ⟨3, 10⟩ 0 ⟨State.Closed, 2⟩ rfl

/-- Counterexample for C7 as stated: `new(0, 10)` is not rejected — it
produces a breaker that admits calls and runs the operation, i.e. a usable
breaker with `max_failures = 0`. -/
theorem C7_counterexample :
    (StateMachine.new 0 10).1.is_call_permitted 0 (StateMachine.new 0 10).2 = (true, initShared)
    ∧ ((StateMachine.new 0 10).1.call 0 0 (StateMachine.new 0 10).2
        (fun _ => (Result.Ok 42 : Result Nat Unit))).1 = Result.Ok 42 := by
  exact ⟨rfl, rfl⟩

/-- C7 (amended): `new` performs no validation at all — every configuration,
`max_failures = 0` included, is accepted and yields the breaker in the
initial `Closed` state with a zero counter; with `max_failures = 0` the
breaker still admits calls, and the first recorded error trips it to
`Open(now + trip_timeout, trip_timeout)`. -/
theorem C7_new_no_validation (m : Nat) (t : Duration) (now : Instant) :
    StateMachine.new m t = ({ max_failures := m, trip_timeout := t }, initShared)
    ∧ ((StateMachine.new 0 t).1.is_call_permitted now (StateMachine.new 0 t).2).1 = true
    ∧ ((StateMachine.new 0 t).1.on_error now (StateMachine.new 0 t).2).state =
        State.Open (now + t) t := by
  refine ⟨rfl, rfl, ?_⟩
  simp [StateMachine.new, StateMachine.on_error, Shared.transit_to_open, initShared]

/-- Witness for C7's amended theorem at a concrete configuration. -/
theorem C7_witness :
    StateMachine.new 5 9 = ({ max_failures := 5, trip_timeout := 9 }, initShared)
    ∧ ((StateMachine.new 0 9).1.is_call_permitted 4 (StateMachine.new 0 9).2).1 = true
    ∧ ((StateMachine.new 0 9).1.on_error 4 (StateMachine.new 0 9).2).state = State.Open 13 9 :=
  C7_new_no_validation 5 9 4

/-- Reduction of `is_call_permitted` on an `Open` state. -/
theorem is_call_permitted_open (sm : StateMachine) (now : Instant) (u : Instant) (d : Duration)
    (cf : Nat) :
    sm.is_call_permitted now ⟨State.Open u d, cf⟩ =
      if now > u then (true, ⟨State.HalfOpen d, cf⟩) else (false, ⟨State.Open u d, cf⟩) := rfl

/-- Reduction of `on_error` on a `Closed` state. -/
theorem on_error_closed (sm : StateMachine) (now : Instant) (cf : Nat) :
    sm.on_error now ⟨State.Closed, cf⟩ =
      if (cf + 1) % 256 ≥ sm.max_failures then
        ⟨State.Open (now + sm.trip_timeout) sm.trip_timeout, (cf + 1) % 256⟩
      else
        ⟨State.Closed, (cf + 1) % 256⟩ := rfl

/-- The counter invariant is preserved by every single interaction. -/
theorem counterInv_applyOp (sm : StateMachine) (sh : Shared) (op : Op)
    (h1 : 1 ≤ sm.max_failures) (h255 : sm.max_failures ≤ 255)
    (h : CounterInv sm sh) : CounterInv sm (sm.applyOp sh op) := by
  obtain ⟨hle, hclosed⟩ := h
  obtain ⟨st, cf⟩ := sh
  cases op with
  | permit now =>
    cases st with
    | Closed => exact ⟨hle, hclosed⟩
    | HalfOpen d => exact ⟨hle, hclosed⟩
    | Open u d =>
      show CounterInv sm (sm.is_call_permitted now ⟨State.Open u d, cf⟩).2
      rw [is_call_permitted_open]
      by_cases hn : now > u
      · rw [if_pos hn]
        exact ⟨hle, fun hx => State.noConfusion hx⟩
      · rw [if_neg hn]
        exact ⟨hle, fun hx => State.noConfusion hx⟩
  | success =>
    cases st with
    | Closed => exact ⟨hle, hclosed⟩
    | Open u d => exact ⟨hle, hclosed⟩
    | HalfOpen d => exact ⟨Nat.zero_le _, fun _ => h1⟩
  | failure now =>
    cases st with
    | Open u d => exact ⟨hle, hclosed⟩
    | HalfOpen d => exact ⟨hle, fun hx => State.noConfusion hx⟩
    | Closed =>
      have hcf : cf < sm.max_failures := hclosed rfl
      have hmod : (cf + 1) % 256 = cf + 1 := Nat.mod_eq_of_lt (by omega)
      show CounterInv sm (sm.on_error now ⟨State.Closed, cf⟩)
      rw [on_error_closed, hmod]
      by_cases ht : cf + 1 ≥ sm.max_failures
      · rw [if_pos ht]
        refine ⟨?_, fun hx => State.noConfusion hx⟩
        show cf + 1 ≤ sm.max_failures
        omega
      · rw [if_neg ht]
        refine ⟨?_, fun _ => ?_⟩
        · show cf + 1 ≤ sm.max_failures
          omega
        · show cf + 1 < sm.max_failures
          omega

/-- The counter invariant is preserved by every sequence of interactions. -/
theorem counterInv_run (sm : StateMachine) (h1 : 1 ≤ sm.max_failures)
    (h255 : sm.max_failures ≤ 255) (ops : List Op) :
    ∀ sh : Shared, CounterInv sm sh → CounterInv sm (sm.run sh ops) := by
  induction ops with
  | nil => intro sh h; exact h
  | cons op ops ih => intro sh h; exact ih _ (counterInv_applyOp sm sh op h1 h255 h)

/-- C9: for a breaker built with `1 ≤ max_failures ≤ 255` (the u8 range), in
every state reachable by any interaction sequence the failure counter stays
at most `max_failures`, is strictly below it whenever the state is `Closed`,
and therefore the u8 increment performed by `on_error` in `Closed` can never
wrap around. -/
theorem C9_counter_invariant (m : Nat) (t : Duration) (ops : List Op)
    (h1 : 1 ≤ m) (h255 : m ≤ 255) :
    ((StateMachine.new m t).1.run (StateMachine.new m t).2 ops).consecutive_failures ≤ m
    ∧ (((StateMachine.new m t).1.run (StateMachine.new m t).2 ops).state = State.Closed →
        ((StateMachine.new m t).1.run (StateMachine.new m t).2 ops).consecutive_failures < m)
    ∧ (((StateMachine.new m t).1.run (StateMachine.new m t).2 ops).state = State.Closed →
        (((StateMachine.new m t).1.run (StateMachine.new m t).2 ops).consecutive_failures + 1)
            % 256 =
          ((StateMachine.new m t).1.run (StateMachine.new m t).2 ops).consecutive_failures + 1) := by
  have hinv : CounterInv (StateMachine.new m t).1
      ((StateMachine.new m t).1.run (StateMachine.new m t).2 ops) :=
    counterInv_run _ h1 h255 ops _ ⟨Nat.zero_le _, fun _ => h1⟩
  obtain ⟨hle, hclosed⟩ := hinv
  refine ⟨hle, hclosed, fun hc => Nat.mod_eq_of_lt ?_⟩
  have hlt : ((StateMachine.new m t).1.run (StateMachine.new m t).2 ops).consecutive_failures
      < m := hclosed hc
  omega

/-- Witness for C9 at a concrete configuration and interaction sequence. -/
theorem C9_witness :
    ((StateMachine.new 3 10).1.run (StateMachine.new 3 10).2
        [Op.failure 0, Op.failure 0]).consecutive_failures ≤ 3
    ∧ (((StateMachine.new 3 10).1.run (StateMachine.new 3 10).2
          [Op.failure 0, Op.failure 0]).state = State.Closed →
        ((StateMachine.new 3 10).1.run (StateMachine.new 3 10).2
          [Op.failure 0, Op.failure 0]).consecutive_failures < 3)
    ∧ (((StateMachine.new 3 10).1.run (StateMachine.new 3 10).2
          [Op.failure 0, Op.failure 0]).state = State.Closed →
        (((StateMachine.new 3 10).1.run (StateMachine.new 3 10).2
            [Op.failure 0, Op.failure 0]).consecutive_failures + 1) % 256 =
          ((StateMachine.new 3 10).1.run (StateMachine.new 3 10).2
            [Op.failure 0, Op.failure 0]).consecutive_failures + 1) :=
  C9_counter_invariant 3 10 [Op.failure 0, Op.failure 0] (by decide) (by decide)

/-- C8: in any step of the state machine, `HalfOpen` is entered only from
`Open` by an admission check after the stored deadline has expired, and any
state change out of `HalfOpen` goes to `Closed` via `on_success` or to
`Open` (re-armed with the same delay) via `on_error` — a step never changes
a `HalfOpen` state into another `HalfOpen` state. -/
theorem C8_half_open_reachability (sm : StateMachine) (sh : Shared) (op : Op) :
    (∀ d, sh.state ≠ (sm.applyOp sh op).state → (sm.applyOp sh op).state = State.HalfOpen d →
      ∃ u now, sh.state = State.Open u d ∧ op = Op.permit now ∧ now > u)
    ∧ (∀ d, sh.state = State.HalfOpen d → sh.state ≠ (sm.applyOp sh op).state →
      ((sm.applyOp sh op).state = State.Closed ∧ op = Op.success
        ∨ ∃ now, op = Op.failure now ∧ (sm.applyOp sh op).state = State.Open (now + d) d))
    ∧ (∀ d d', sh.state = State.HalfOpen d → (sm.applyOp sh op).state = State.HalfOpen d' →
      sm.applyOp sh op = sh) := by
  obtain ⟨st, cf⟩ := sh
  refine ⟨?_, ?_, ?_⟩
  · intro d hne hh
    cases op with
    | permit now =>
      cases st with
      | Closed => exact absurd rfl hne
      | HalfOpen d0 => exact absurd rfl hne
      | Open u d0 =>
        by_cases hn : now > u
        · have hres : (sm.applyOp ⟨State.Open u d0, cf⟩ (Op.permit now)).state =
              State.HalfOpen d0 := by
            show (sm.is_call_permitted now ⟨State.Open u d0, cf⟩).2.state = _
            rw [is_call_permitted_open, if_pos hn]
          rw [hres] at hh
          cases hh
          exact ⟨u, now, rfl, rfl, hn⟩
        · have hres : sm.applyOp ⟨State.Open u d0, cf⟩ (Op.permit now) =
              ⟨State.Open u d0, cf⟩ := by
            show (sm.is_call_permitted now ⟨State.Open u d0, cf⟩).2 = _
            rw [is_call_permitted_open, if_neg hn]
          rw [hres] at hne
          exact absurd rfl hne
    | success =>
      cases st with
      | Closed => exact absurd rfl hne
      | Open u d0 => exact absurd rfl hne
      | HalfOpen d0 => exact State.noConfusion hh
    | failure now =>
      cases st with
      | HalfOpen d0 => exact State.noConfusion hh
      | Open u d0 => exact absurd rfl hne
      | Closed =>
        by_cases ht : (cf + 1) % 256 ≥ sm.max_failures
        · have hres : (sm.applyOp ⟨State.Closed, cf⟩ (Op.failure now)).state =
              State.Open (now + sm.trip_timeout) sm.trip_timeout := by
            show (sm.on_error now ⟨State.Closed, cf⟩).state = _
            rw [on_error_closed, if_pos ht]
          rw [hres] at hh
          exact State.noConfusion hh
        · have hres : (sm.applyOp ⟨State.Closed, cf⟩ (Op.failure now)).state = State.Closed := by
            show (sm.on_error now ⟨State.Closed, cf⟩).state = _
            rw [on_error_closed, if_neg ht]
          rw [hres] at hh
          exact State.noConfusion hh
  · intro d hst hne
    cases op with
    | permit now =>
      cases st with
      | Closed => exact State.noConfusion hst
      | Open u d0 => exact State.noConfusion hst
      | HalfOpen d0 => exact absurd rfl hne
    | success =>
      cases st with
      | Closed => exact State.noConfusion hst
      | Open u d0 => exact State.noConfusion hst
      | HalfOpen d0 => exact Or.inl ⟨rfl, rfl⟩
    | failure now =>
      cases st with
      | Closed => exact State.noConfusion hst
      | Open u d0 => exact State.noConfusion hst
      | HalfOpen d0 =>
        cases hst
        exact Or.inr ⟨now, rfl, rfl⟩
  · intro d d' hst hst'
    cases op with
    | permit now =>
      cases st with
      | Closed => exact State.noConfusion hst
      | Open u d0 => exact State.noConfusion hst
      | HalfOpen d0 => rfl
    | success =>
      cases st with
      | Closed => exact State.noConfusion hst
      | Open u d0 => exact State.noConfusion hst
      | HalfOpen d0 => exact State.noConfusion hst'
    | failure now =>
      cases st with
      | Closed => exact State.noConfusion hst
      | Open u d0 => exact State.noConfusion hst
      | HalfOpen d0 => exact State.noConfusion hst'

/-- Witness for C8: an expired `Open` deadline is the step that enters
`HalfOpen`. -/
theorem C8_witness :
    ∃ u now, (⟨State.Open 3 7, 2⟩ : Shared).state = State.Open u 7
      ∧ Op.permit 5 = Op.permit now ∧ now > u :=
  (C8_half_open_reachability ⟨3, 10⟩ ⟨State.Open 3 7, 2⟩ (Op.permit 5)).1 7
    (by decide) (by decide)

/-- C4: `call` evaluates `is_call_permitted` first; on denial it returns
`Rejected` without invoking the operation (the result is the same for every
operation and the trace holds no invocation event); on permission the
operation runs exactly once and exactly one of `on_success`/`on_error` is
applied, after the operation and before `call` returns, with an `Ok` value
returned to the caller and an `Err` payload surfaced unmodified inside
`Inner`. -/
theorem C4_call_contract {T E : Type} (sm : StateMachine) (now1 now2 : Instant) (sh : Shared)
    (f : Unit → Result T E) :
    (sm.callWithTrace now1 now2 sh f).1 = sm.call now1 now2 sh f
    ∧ ((sm.is_call_permitted now1 sh).1 = false →
        (∀ g : Unit → Result T E,
          sm.call now1 now2 sh g = (Result.Err Error.Rejected, (sm.is_call_permitted now1 sh).2))
        ∧ (sm.callWithTrace now1 now2 sh f).2 = [CallEvent.admission false])
    ∧ ((sm.is_call_permitted now1 sh).1 = true →
        (∀ t, f () = Result.Ok t →
          sm.call now1 now2 sh f = (Result.Ok t, sm.on_success (sm.is_call_permitted now1 sh).2)
          ∧ (sm.callWithTrace now1 now2 sh f).2 =
              [CallEvent.admission true, CallEvent.invoked (Result.Ok t),
               CallEvent.reportedSuccess])
        ∧ (∀ e, f () = Result.Err e →
          sm.call now1 now2 sh f =
            (Result.Err (Error.Inner e), sm.on_error now2 (sm.is_call_permitted now1 sh).2)
          ∧ (sm.callWithTrace now1 now2 sh f).2 =
              [CallEvent.admission true, CallEvent.invoked (Result.Err e),
               CallEvent.reportedError])) := by
  refine ⟨?_, ?_, ?_⟩
  · cases hb : (sm.is_call_permitted now1 sh).1 with
    | false => simp [StateMachine.call, StateMachine.callWithTrace, hb]
    | true =>
      cases hf : f () with
      | Ok t => simp [StateMachine.call, StateMachine.callWithTrace, hb, hf]
      | Err e => simp [StateMachine.call, StateMachine.callWithTrace, hb, hf]
  · intro hb
    refine ⟨fun g => ?_, ?_⟩
    · simp [StateMachine.call, hb]
    · simp [StateMachine.callWithTrace, hb]
  · intro hb
    refine ⟨fun t hf => ⟨?_, ?_⟩, fun e hf => ⟨?_, ?_⟩⟩
    · simp [StateMachine.call, hb, hf]
    · simp [StateMachine.callWithTrace, hb, hf]
    · simp [StateMachine.call, hb, hf]
    · simp [StateMachine.callWithTrace, hb, hf]

/-- Witness for C4 on a permitted successful call and on a rejected call. -/
theorem C4_witness :
    StateMachine.call ⟨3, 10⟩ 0 0 initShared (fun _ => (Result.Ok 7 : Result Nat Unit)) =
      (Result.Ok 7,
       StateMachine.on_success ⟨3, 10⟩ (StateMachine.is_call_permitted ⟨3, 10⟩ 0 initShared).2)
    ∧ StateMachine.call ⟨3, 10⟩ 0 0 ⟨State.Open 10 10, 3⟩
        (fun _ => (Result.Ok 7 : Result Nat Unit)) =
      (Result.Err Error.Rejected,
       (StateMachine.is_call_permitted ⟨3, 10⟩ 0 ⟨State.Open 10 10, 3⟩).2) :=
  ⟨(((C4_call_contract ⟨3, 10⟩ 0 0 initShared
      (fun _ => (Result.Ok 7 : Result Nat Unit))).2.2 rfl).1 7 rfl).1,
   ((C4_call_contract ⟨3, 10⟩ 0 0 ⟨State.Open 10 10, 3⟩
      (fun _ => (Result.Ok 7 : Result Nat Unit))).2.1 rfl).1
     (fun _ => (Result.Ok 7 : Result Nat Unit))⟩

/-- C2 (amended): while `Closed`, the counter accumulates failures without
being reset by successes, so the guarantee is for totals: for every sequence
of outcomes whose TOTAL number of failures, added to the current counter,
stays below `max_failures`, every call is admitted and runs the operation
(each result is the operation's own outcome), the breaker never leaves
`Closed`, and the counter ends at the old value plus the number of
failures. -/
theorem C2_closed_total_failures (sm : StateMachine) (outs : List Bool) (sh : Shared)
    (h1 : 1 ≤ sm.max_failures) (h255 : sm.max_failures ≤ 255)
    (hst : sh.state = State.Closed)
    (hcnt : sh.consecutive_failures + countFailures outs < sm.max_failures) :
    (sm.runOutcomes sh outs).1 =
      outs.map (fun b => if b then Result.Ok () else Result.Err (Error.Inner ()))
    ∧ (sm.runOutcomes sh outs).2.state = State.Closed
    ∧ (sm.runOutcomes sh outs).2.consecutive_failures =
        sh.consecutive_failures + countFailures outs := by
  induction outs generalizing sh with
  | nil => exact ⟨rfl, hst, by simp [StateMachine.runOutcomes, countFailures]⟩
  | cons b rest ih =>
    obtain ⟨st, cf⟩ := sh
    cases st with
    | Open u d => exact State.noConfusion hst
    | HalfOpen d => exact State.noConfusion hst
    | Closed =>
      have hcf : cf + countFailures (b :: rest) < sm.max_failures := hcnt
      cases b with
      | true =>
        have hrun : sm.runOutcomes ⟨State.Closed, cf⟩ (true :: rest) =
            (Result.Ok () :: (sm.runOutcomes ⟨State.Closed, cf⟩ rest).1,
             (sm.runOutcomes ⟨State.Closed, cf⟩ rest).2) := rfl
        have hc' : cf + countFailures rest < sm.max_failures := by
          have : countFailures (true :: rest) = countFailures rest := by simp [countFailures]
          omega
        have ihr := ih ⟨State.Closed, cf⟩ rfl hc'
        rw [hrun]
        refine ⟨?_, ihr.2.1, ?_⟩
        · simp [ihr.1]
        · have : countFailures (true :: rest) = countFailures rest := by simp [countFailures]
          rw [this]
          exact ihr.2.2
      | false =>
        have hcc : countFailures (false :: rest) = 1 + countFailures rest := by
          simp [countFailures]
        have hlt : cf + 1 < sm.max_failures := by omega
        have hmod : (cf + 1) % 256 = cf + 1 := Nat.mod_eq_of_lt (by omega)
        have hne : ¬ ((cf + 1) % 256 ≥ sm.max_failures) := by
          rw [hmod]
          omega
        have herr : sm.on_error 0 ⟨State.Closed, cf⟩ = ⟨State.Closed, (cf + 1) % 256⟩ := by
          rw [on_error_closed, if_neg hne]
        have hrun : sm.runOutcomes ⟨State.Closed, cf⟩ (false :: rest) =
            (Result.Err (Error.Inner ()) ::
               (sm.runOutcomes (sm.on_error 0 ⟨State.Closed, cf⟩) rest).1,
             (sm.runOutcomes (sm.on_error 0 ⟨State.Closed, cf⟩) rest).2) := rfl
        have hc' : ((⟨State.Closed, (cf + 1) % 256⟩ : Shared)).consecutive_failures
            + countFailures rest < sm.max_failures := by
          show (cf + 1) % 256 + countFailures rest < sm.max_failures
          rw [hmod]
          omega
        have ihr := ih ⟨State.Closed, (cf + 1) % 256⟩ rfl hc'
        rw [hrun, herr]
        refine ⟨?_, ihr.2.1, ?_⟩
        · simp [ihr.1]
        · have h3 : (sm.runOutcomes ⟨State.Closed, (cf + 1) % 256⟩ rest).2.consecutive_failures
              = (cf + 1) % 256 + countFailures rest := ihr.2.2
          show (sm.runOutcomes ⟨State.Closed, (cf + 1) % 256⟩ rest).2.consecutive_failures
              = cf + countFailures (false :: rest)
          rw [h3, hmod, hcc]
          omega

/-- Counterexample for C2 as stated: with `max_failures = 3`, the outcome
sequence F,S,F,S,F,F has longest failure run 2 (fewer than 3 consecutive
failures), yet the fifth failure trips the breaker out of `Closed` — the
counter is cumulative, not consecutive — and the sixth call is rejected
without running the operation. -/
theorem C2_counterexample :
    spec_maxConsecutiveFailures [false, true, false, true, false, false] < 3
    ∧ (StateMachine.runOutcomes ⟨3, 10⟩ initShared
        [false, true, false, true, false, false]).1[5]? =
      some (Result.Err Error.Rejected)
    ∧ (StateMachine.runOutcomes ⟨3, 10⟩ initShared
        [false, true, false, true, false, false]).2.state ≠ State.Closed := by
  decide

/-- Witness for C2's amended theorem on a short concrete sequence. -/
theorem C2_witness :
    (StateMachine.runOutcomes ⟨3, 10⟩ initShared [false, true, false]).1 =
      [false, true, false].map (fun b => if b then Result.Ok () else Result.Err (Error.Inner ()))
    ∧ (StateMachine.runOutcomes ⟨3, 10⟩ initShared [false, true, false]).2.state = State.Closed
    ∧ (StateMachine.runOutcomes ⟨3, 10⟩ initShared [false, true, false]).2.consecutive_failures =
        initShared.consecutive_failures + countFailures [false, true, false] :=
  C2_closed_total_failures ⟨3, 10⟩ [false, true, false] initShared (by decide) (by decide)
    rfl (by decide)
